import Mathlib

/-!
Shallow embedding of the jet-queue producer/worker (a Redis-backed job
queue) over an explicit single-queue key-space state, together with
theorems checking the specification's claims against the embedded code.

The embedding mirrors `src/types/index.ts`, `src/utils/backoff.ts`,
`src/utils/scripts.ts`, `src/queue/Queue.ts` and `src/worker/Worker.ts`.
Redis collections for one named queue are modelled explicitly: the
waiting list, the active list, the delayed sorted set (an association
list from id to score, keys unique in well-formed states), and the per-id
job hashes (fields `data` and `startedAt`). JSON serialization is
modelled as the identity on `Job` values (the spec requires lossless
round-tripping and the format is internal).
-/

namespace JetQueue

/-- Backoff configuration (`JobOptions.backoff` in `src/types/index.ts`).
The runtime switch in `backoff.ts` dispatches on the string tag, with a
default arm, so the tag is kept as a string. -/
structure Backoff where
  type : String
  delay : Nat
deriving Repr, DecidableEq

/-- `JobOptions` from `src/types/index.ts`; every key is optional, so each
field is an `Option` and an absent key is `none`. -/
structure JobOptions where
  attempts : Option Nat := none
  backoff : Option Backoff := none
  delay : Option Nat := none
  priority : Option Nat := none
  timeout : Option Nat := none
  removeOnComplete : Option Bool := none
  removeOnFail : Option Bool := none
deriving Repr, DecidableEq

/-- The JS object spread `{...dflt, ...opts}` of `Queue.add`: a key present
in `opts` wins, otherwise the default's key is kept. -/
def mergeOptions (dflt opts : JobOptions) : JobOptions where
  attempts := opts.attempts.orElse fun _ => dflt.attempts
  backoff := opts.backoff.orElse fun _ => dflt.backoff
  delay := opts.delay.orElse fun _ => dflt.delay
  priority := opts.priority.orElse fun _ => dflt.priority
  timeout := opts.timeout.orElse fun _ => dflt.timeout
  removeOnComplete := opts.removeOnComplete.orElse fun _ => dflt.removeOnComplete
  removeOnFail := opts.removeOnFail.orElse fun _ => dflt.removeOnFail

/-- `JobStatus` from `src/types/index.ts`. -/
inductive JobStatus
  | waiting
  | active
  | delayed
  | completed
  | failed
deriving Repr, DecidableEq

/-- The `Job` record from `src/types/index.ts` (the producer writes the
field it calls `createdAt`; payloads are opaque blobs). -/
structure Job where
  id : String
  name : String
  data : String
  options : JobOptions
  createdAt : Nat
  status : JobStatus
  attemptsMade : Nat
  failedReason : Option String := none
  stackTrace : List String := []
  returnValue : Option String := none
deriving Repr, DecidableEq

/-- One Redis hash at key `P:Q:job:<id>`: field `data` holds the serialized
job, field `startedAt` is written by the `moveToActive` script. -/
structure JobRecord where
  data : Option Job := none
  startedAt : Option Nat := none
deriving Repr, DecidableEq

/-- The key-space of one named queue (§4.1 of the spec): waiting list,
active list, delayed sorted set (id ↦ score), job hashes, pause flag.
List heads are the Redis LPUSH side. -/
structure QueueState where
  waiting : List String := []
  active : List String := []
  delayed : List (String × Int) := []
  jobs : List (String × JobRecord) := []
  paused : Bool := false
deriving Repr, DecidableEq

/-- `LREM key 0 id`: remove every occurrence of `id`. -/
def lremAll (l : List String) (id : String) : List String :=
  l.filter (fun x => x != id)

/-- `ZREM`: drop the member `id` from the sorted set. -/
def zrem (zs : List (String × Int)) (id : String) : List (String × Int) :=
  zs.filter (fun p => p.1 != id)

/-- `ZADD`: upsert member `id` with the given score. -/
def zadd (zs : List (String × Int)) (score : Int) (id : String) :
    List (String × Int) :=
  zrem zs id ++ [(id, score)]

/-- Look up the hash stored at `job:<id>`, if the key exists. -/
def hashLookup (s : QueueState) (id : String) : Option JobRecord :=
  (s.jobs.find? (fun p => p.1 == id)).map (fun p => p.2)

/-- `HGET job:<id> data`, with deserialization modelled as the identity. -/
def hgetData (s : QueueState) (id : String) : Option Job :=
  (hashLookup s id).bind (fun r => r.data)

/-- Store `r` as the hash at `job:<id>` (replacing any previous hash). -/
def setRecord (s : QueueState) (id : String) (r : JobRecord) : QueueState :=
  { s with jobs := s.jobs.filter (fun p => p.1 != id) ++ [(id, r)] }

/-- `HSET job:<id> data <job>`: creates the hash when absent. -/
def hsetData (s : QueueState) (id : String) (j : Job) : QueueState :=
  setRecord s id { (hashLookup s id).getD {} with data := some j }

/-- `HSET job:<id> startedAt <t>`: creates the hash when absent. -/
def hsetStartedAt (s : QueueState) (id : String) (t : Nat) : QueueState :=
  setRecord s id { (hashLookup s id).getD {} with startedAt := some t }

/-- `DEL job:<id>`. -/
def delHash (s : QueueState) (id : String) : QueueState :=
  { s with jobs := s.jobs.filter (fun p => p.1 != id) }

/-- The observable events of §6.1 that the embedded operations emit. -/
inductive Event
  | ready
  | added (job : Job)
  | removed (id : String)
  | paused
  | resumed
  | closed
  | processing (job : Job)
  | failed (job : Job) (msg : String)
  | retrying (job : Job)
  | completed
deriving Repr, DecidableEq

/-- The three error categories of `src/errors/index.ts`. -/
inductive QError
  | queueError (msg : String)
  | jobError (msg : String)
  | workerError (msg : String)
deriving Repr, DecidableEq

/-- JS truthiness of the optional numeric `delay`: present and nonzero. -/
def delayTruthy (d : Option Nat) : Bool :=
  match d with
  | some n => n != 0
  | none => false

/-- `Queue.add` (src/queue/Queue.ts 41-71). Fails when the queue is not
ready; otherwise builds the job (status from the truthiness of the
call-site `options.delay`, options merged over the defaults), and in one
transaction writes the hash and LPUSHes onto waiting or ZADDs into
delayed with score `now + delay`; emits `added`. The fresh uuid and the
clock are parameters. -/
def Queue.add (isReady : Bool) (defaultJobOptions : JobOptions)
    (s : QueueState) (freshId : String) (now : Nat) (name : String)
    (data : String) (options : JobOptions) :
    Except QError (Job × QueueState × List Event) :=
  if !isReady then .error (.queueError "Queue is not ready") else
  let job : Job :=
    { id := freshId
      name := name
      data := data
      options := mergeOptions defaultJobOptions options
      createdAt := now
      status := if delayTruthy options.delay then .delayed else .waiting
      attemptsMade := 0 }
  let s1 := hsetData s job.id job
  let s2 :=
    if job.status = JobStatus.delayed then
      { s1 with delayed := zadd s1.delayed (Int.ofNat (now + options.delay.getD 0)) job.id }
    else
      { s1 with waiting := job.id :: s1.waiting }
  .ok (job, s2, [Event.added job])

/-- `Queue.getJob` (src/queue/Queue.ts 73-81): HGET the hash's `data`
field; when it is absent the source throws a `JobError`. -/
def Queue.getJob (s : QueueState) (jobId : String) :
    Except QError (Option Job) :=
  match hgetData s jobId with
  | none => .error (.jobError ("Job with id " ++ jobId ++ " not found"))
  | some j => .ok (some j)

/-- `Queue.removeJob` (src/queue/Queue.ts 83-98): fetch via `getJob`
(propagating its error), return silently on a null fetch, otherwise in
one transaction LREM from waiting and active, ZREM from delayed, DEL the
hash, and emit `removed`. -/
def Queue.removeJob (s : QueueState) (jobId : String) :
    Except QError (QueueState × List Event) :=
  match Queue.getJob s jobId with
  | .error e => .error e
  | .ok none => .ok (s, [])
  | .ok (some _) =>
      let s1 :=
        { s with
          waiting := lremAll s.waiting jobId
          active := lremAll s.active jobId
          delayed := zrem s.delayed jobId }
      .ok (delHash s1 jobId, [Event.removed jobId])

/-- `Queue.pause` (src/queue/Queue.ts 100-103): SET the pause key. -/
def Queue.pause (s : QueueState) : QueueState × List Event :=
  ({ s with paused := true }, [Event.paused])

/-- `Queue.resume` (src/queue/Queue.ts 105-108): DEL the pause key. -/
def Queue.resume (s : QueueState) : QueueState × List Event :=
  ({ s with paused := false }, [Event.resumed])

/-- `Queue.isPaused` (src/queue/Queue.ts 110-112). -/
def Queue.isPaused (s : QueueState) : Bool :=
  s.paused

/-- `Queue.close` (src/queue/Queue.ts 114-119): acts on the producer-local
readiness flag only; when ready, clear it and emit `closed`, else do
nothing and emit nothing. -/
def Queue.close (isReady : Bool) : Bool × List Event :=
  if isReady then (false, [Event.closed]) else (isReady, [])

/-- The `moveToActive` Lua script (src/utils/scripts.ts 2-18): RPOP the
waiting list; if an id came back, LPUSH it onto active, HSET `startedAt`
on its hash, and return the id; if waiting was empty return nil. -/
def moveToActive (s : QueueState) (nowMs : Nat) : Option String × QueueState :=
  match s.waiting.getLast? with
  | none => (none, s)
  | some jobId =>
      let s1 := { s with waiting := s.waiting.dropLast, active := jobId :: s.active }
      (some jobId, hsetStartedAt s1 jobId nowMs)

/-- The loop body of the `processDelayed` Lua script: ZREM the id from
delayed and LPUSH it onto waiting. -/
def promoteStep (st : QueueState) (jobId : String) : QueueState :=
  { st with delayed := zrem st.delayed jobId, waiting := jobId :: st.waiting }

/-- The `processDelayed` Lua script (src/utils/scripts.ts 21-34):
`ZRANGEBYSCORE delayed 0 nowMs` (both bounds inclusive), then move each
returned id from delayed to the head of waiting; return the ranged ids. -/
def processDelayed (s : QueueState) (nowMs : Int) :
    List String × QueueState :=
  let jobs := (s.delayed.filter (fun p => decide (0 ≤ p.2 ∧ p.2 ≤ nowMs))).map (fun p => p.1)
  (jobs, jobs.foldl promoteStep s)

/-- `job.options.attempts || 1` of `Worker.failJob`: JS `||` maps both an
absent and a zero `attempts` to 1. -/
def attemptsOr1 (opts : JobOptions) : Nat :=
  match opts.attempts with
  | some a => if a = 0 then 1 else a
  | none => 1

/-- `calculateBackoff` (src/utils/backoff.ts 3-17). Note the source's
`backoff.delay || 1000`: a zero delay is replaced by 1000. -/
def calculateBackoff (attempts : Nat) (opts : JobOptions) : Nat :=
  match opts.backoff with
  | none => 0
  | some b =>
      let delay := if b.delay = 0 then 1000 else b.delay
      if b.type = "exponential" then delay * 2 ^ (attempts - 1)
      else if b.type = "fixed" then delay
      else 0

/-- `Worker.failJob` (src/worker/Worker.ts 151-193). Reads the hash (a
missing hash returns silently), increments `attemptsMade`, records
`failedReason`, appends to `stackTrace` (`error.stack || error.message`
is passed in as `errStack`); then either the retry transaction (ZADD
into delayed at `now + backoff`, write back with status delayed, LREM
from active; emit `failed` then `retrying`) or the terminal transaction
(LREM from active, DEL or write back by `removeOnFail`; emit `failed`).
The hash operations use the `jobId` key and the list/set operations use
the stored job's own id, exactly as the source does. -/
def Worker.failJob (s : QueueState) (jobId : String) (errMsg : String)
    (errStack : String) (now : Nat) : QueueState × List Event :=
  match hgetData s jobId with
  | none => (s, [])
  | some job0 =>
      let job1 : Job :=
        { job0 with
          attemptsMade := job0.attemptsMade + 1
          failedReason := some errMsg
          stackTrace := job0.stackTrace ++ [errStack] }
      if job1.attemptsMade < attemptsOr1 job1.options then
        let backoffDelay := calculateBackoff job1.attemptsMade job1.options
        let job2 : Job := { job1 with status := JobStatus.delayed }
        let s1 := { s with delayed := zadd s.delayed (Int.ofNat (now + backoffDelay)) job2.id }
        let s2 := hsetData s1 jobId job2
        let s3 := { s2 with active := lremAll s2.active job2.id }
        (s3, [Event.failed job2 errMsg, Event.retrying job2])
      else
        let job2 : Job := { job1 with status := JobStatus.failed }
        let s1 := { s with active := lremAll s.active job2.id }
        let s2 :=
          if job2.options.removeOnFail.getD false then delHash s1 jobId
          else hsetData s1 jobId job2
        (s2, [Event.failed job2 errMsg])

/-- The process-local control state of a `Worker` (src/worker/Worker.ts):
whether a handler is installed, the running flag, and whether the two
cooperative loops were started. Handlers are opaque, so only presence is
modelled. -/
structure WorkerState where
  hasProcessFn : Bool := false
  isRunning : Bool := false
  dispatcherStarted : Bool := false
  promoterStarted : Bool := false
deriving Repr, DecidableEq

/-- `Worker.process` (src/worker/Worker.ts 47-60): a second handler throws
a `WorkerError`; the first call installs the handler, sets `isRunning`,
and starts the dispatcher (`processJobs`) and promoter
(`processDelayedJobs`) loops. -/
def Worker.process (w : WorkerState) : Except QError WorkerState :=
  if w.hasProcessFn then
    .error (.workerError "Cannot set multiple process functions")
  else
    .ok { w with
          hasProcessFn := true
          isRunning := true
          dispatcherStarted := true
          promoterStarted := true }

/-- The dispatch decision of one `processJobs` iteration (src/worker/
Worker.ts 62-97 and `getNextJob` 99-108): with no handler nothing is
fetched; otherwise `moveToActive` is invoked. The source consults no
pause flag anywhere in this loop, so the decision does not read
`s.paused`. -/
def Worker.dispatchIteration (hasProcessFn : Bool) (s : QueueState)
    (nowMs : Nat) : Option String × QueueState :=
  if !hasProcessFn then (none, s) else moveToActive s nowMs

/-- The effective backoff delay after the source's `backoff.delay || 1000`
coalescing: a zero configured delay is replaced by 1000. -/
def effDelay (b : Backoff) : Nat :=
  if b.delay = 0 then 1000 else b.delay

/-- Read the `startedAt` field of the hash at `job:<id>`, if any. -/
def startedAtOf (s : QueueState) (id : String) : Option Nat :=
  (hashLookup s id).bind (fun r => r.startedAt)

/-- Observation of an `add` outcome: the merged delay option, the job's
status, and where the id landed (waiting list and delayed set). -/
def addPlacement (r : Except QError (Job × QueueState × List Event)) :
    Option (Option Nat × JobStatus × List String × List (String × Int)) :=
  match r with
  | .ok (job, s2, _) => some (job.options.delay, job.status, s2.waiting, s2.delayed)
  | .error _ => none

/-- A concrete waiting job, used to exercise removal twice. -/
def rjJob : Job :=
  { id := "j1", name := "t", data := "d", options := {}, createdAt := 0,
    status := JobStatus.waiting, attemptsMade := 0 }

/-- The key-space holding exactly `rjJob` in waiting. -/
def rjState : QueueState :=
  { waiting := ["j1"], jobs := [("j1", { data := some rjJob })] }

/-- A concrete active job with an explicit `attempts = 0` option. -/
def zeroAttemptsJob : Job :=
  { id := "j7", name := "t", data := "d", options := { attempts := some 0 },
    createdAt := 0, status := JobStatus.active, attemptsMade := 0 }

/-- The key-space holding exactly `zeroAttemptsJob` in active. -/
def zeroAttemptsState : QueueState :=
  { active := ["j7"], jobs := [("j7", { data := some zeroAttemptsJob })] }

/-- A paused queue with one id waiting for dispatch. -/
def pausedState : QueueState :=
  { waiting := ["j1"], paused := true }

/-- A delayed set holding one member with a negative score. -/
def negScoreState : QueueState :=
  { delayed := [("a", -1)] }

/-- A delayed set with one due member ("a"), one not-yet-due member
("b") and one negative-score member ("c"), over waiting = ["w"]. -/
def promoteDemoState : QueueState :=
  { waiting := ["w"], delayed := [("a", 3), ("b", 10), ("c", -2)] }

end JetQueue

deriving instance DecidableEq for Except

namespace JetQueue

/-- A filter that drops the key `id` leaves nothing for a find of `id`. -/
theorem find?_filter_ne_none (l : List (String × JobRecord)) (id : String) :
    (l.filter (fun p => p.1 != id)).find? (fun p => p.1 == id) = none := by
  rw [List.find?_eq_none]
  intro p hp
  have h2 := (List.mem_filter.mp hp).2
  simp only [bne_iff_ne, ne_eq] at h2
  simp [h2]

/-- Storing a hash record makes it the one found at its key. -/
theorem hashLookup_setRecord_self (s : QueueState) (id : String) (r : JobRecord) :
    hashLookup (setRecord s id r) id = some r := by
  unfold hashLookup setRecord
  simp only [List.find?_append, find?_filter_ne_none]
  simp [List.find?]

/-- `hgetData` after `hsetData` at the same key returns the stored job. -/
theorem hgetData_hsetData_self (s : QueueState) (id : String) (j : Job) :
    hgetData (hsetData s id j) id = some j := by
  unfold hgetData hsetData
  rw [hashLookup_setRecord_self]
  rfl

/-- `hgetData` after `delHash` at the same key returns nothing. -/
theorem hgetData_delHash_self (s : QueueState) (id : String) :
    hgetData (delHash s id) id = none := by
  unfold hgetData hashLookup delHash
  simp only [find?_filter_ne_none, Option.map_none]
  rfl

/-- `hgetData` reads only the `jobs` component of the state. -/
theorem hgetData_eq_of_jobs_eq {s t : QueueState} (h : s.jobs = t.jobs)
    (id : String) : hgetData s id = hgetData t id := by
  unfold hgetData hashLookup
  rw [h]

/-- `LREM key 0 id` leaves no occurrence of `id`. -/
theorem not_mem_lremAll (l : List String) (id : String) :
    id ∉ lremAll l id := by
  unfold lremAll
  intro h
  have := (List.mem_filter.mp h).2
  simp at this

/-- `ZADD` makes the member present with the written score. -/
theorem mem_zadd_self (zs : List (String × Int)) (score : Int) (id : String) :
    (id, score) ∈ zadd zs score id := by
  unfold zadd
  exact List.mem_append_right _ (List.mem_singleton.mpr rfl)

/-- C1: the claim says both of two successive `removeJob(id)` calls
succeed, each performing the LREM/LREM/ZREM/DEL transaction and emitting
`removed`. In the source, `removeJob` first fetches via `getJob`, which
throws on an absent hash, so the second call propagates a `JobError`
instead of succeeding: the first call on a one-job key-space succeeds,
empties the key-space and emits `removed`; repeating the call on that
resulting (empty) key-space raises. -/
theorem claim1_removeJob_second_call_raises :
    Queue.removeJob rjState "j1" = .ok ({}, [Event.removed "j1"])
    ∧ Queue.removeJob {} "j1" = .error (.jobError "Job with id j1 not found") := by
  decide

/-- C2: the claim (and the repository's unit test) says `getJob(id)`
returns null when the hash record is absent; the source instead throws a
job-category error. Evaluating the embedded source at an absent id
exhibits the divergence. -/
theorem claim2_getJob_absent_raises :
    Queue.getJob {} "missing" = .error (.jobError "Job with id missing not found") := by
  decide

/-- C6 fails as stated: the claim covers `backoff.delay = 0` and requires
`calculateBackoff(1, {backoff: {type: "fixed", delay: 0}}) = 0`, but the
source's `backoff.delay || 1000` replaces the zero delay with 1000. -/
theorem claim6_counterexample :
    calculateBackoff 1 { backoff := some { type := "fixed", delay := 0 } } ≠ 0
    ∧ calculateBackoff 1 { backoff := some { type := "fixed", delay := 0 } } = 1000 := by
  decide

/-- C6 (amended): for every attempts ≥ 1, `calculateBackoff` returns 0
when no backoff is configured; otherwise, writing `effDelay` for the
configured delay with 0 coalesced to 1000, it returns `effDelay` for
type "fixed", `effDelay × 2^(attempts−1)` for type "exponential", and 0
for any other tag. -/
theorem claim6_backoff_formula (attempts : Nat) (opts : JobOptions)
    (_h : 1 ≤ attempts) :
    calculateBackoff attempts opts =
      (match opts.backoff with
       | none => 0
       | some b =>
           if b.type = "fixed" then effDelay b
           else if b.type = "exponential" then effDelay b * 2 ^ (attempts - 1)
           else 0) := by
  cases hb : opts.backoff with
  | none => simp [calculateBackoff, hb]
  | some b =>
      simp only [calculateBackoff, hb, effDelay]
      by_cases hf : b.type = "fixed"
      · have : b.type ≠ "exponential" := by simp [hf]
        simp [hf, this]
      · by_cases he : b.type = "exponential" <;> simp [hf, he]

/-- Witness for `claim6_backoff_formula` at attempts = 2 with an
exponential backoff of delay 7. -/
theorem claim6_backoff_formula_witness :
    1 ≤ 2 ∧
    calculateBackoff 2 { backoff := some { type := "exponential", delay := 7 } } =
      (match ({ backoff := some { type := "exponential", delay := 7 } } : JobOptions).backoff with
       | none => 0
       | some b =>
           if b.type = "fixed" then effDelay b
           else if b.type = "exponential" then effDelay b * 2 ^ (2 - 1)
           else 0) :=
  ⟨by decide,
   claim6_backoff_formula 2 { backoff := some { type := "exponential", delay := 7 } } (by decide)⟩

/-- C7 fails as stated at an explicit `options.attempts = 0`: the failure
path floors the threshold with `options.attempts || 1`, so the job
reaches status `failed` with `attemptsMade = 1 > 0 = options.attempts`,
violating the claimed `attemptsMade ≤ options.attempts`. -/
theorem claim7_counterexample :
    zeroAttemptsJob.options.attempts = some 0
    ∧ ((hgetData (Worker.failJob zeroAttemptsState "j7" "boom" "trace" 0).1 "j7").map
        (fun j => (j.status, j.attemptsMade))) = some (JobStatus.failed, 1) := by
  decide

/-- C8: the claim (a correctness fix the spec states explicitly) requires
every dispatcher iteration taken while the queue's pause flag is set to
sleep and skip `moveToActive`; the source's loop never reads the flag.
Evaluated at a paused queue with one waiting id, the embedded iteration
still dispatches the id into active. -/
theorem claim8_paused_queue_still_dispatched :
    Queue.isPaused pausedState = true
    ∧ (Worker.dispatchIteration true pausedState 5).1 = some "j1"
    ∧ (Worker.dispatchIteration true pausedState 5).2.active = ["j1"] := by
  decide

/-- C9: calling `process(handler)` when a handler is already installed
fails with a worker-category error; the first call installs the handler,
sets the running flag, and starts the dispatcher and promoter loops. -/
theorem claim9_process_single_handler (w : WorkerState) :
    (w.hasProcessFn = true →
      Worker.process w = .error (.workerError "Cannot set multiple process functions"))
    ∧ (w.hasProcessFn = false →
      Worker.process w =
        .ok { hasProcessFn := true, isRunning := true, dispatcherStarted := true, promoterStarted := true }) := by
  constructor <;> intro h <;> simp [Worker.process, h]

/-- Witness for `claim9_process_single_handler`: a worker with a handler
rejects a second one, and a fresh worker accepts the first. -/
theorem claim9_process_witness :
    Worker.process { hasProcessFn := true } =
      .error (.workerError "Cannot set multiple process functions")
    ∧ Worker.process {} =
      .ok { hasProcessFn := true, isRunning := true,
            dispatcherStarted := true, promoterStarted := true } :=
  ⟨(claim9_process_single_handler { hasProcessFn := true }).1 rfl,
   (claim9_process_single_handler {}).2 rfl⟩

/-- C10: `Queue.close` is idempotent at the event surface: the first call
on a ready producer clears readiness and emits `closed`; a call on a
not-ready producer changes nothing and emits nothing, so every
subsequent call after the first is silent. Both flag values are
enumerated, covering all states. -/
theorem claim10_close_idempotent :
    Queue.close true = (false, [Event.closed])
    ∧ Queue.close false = (false, [])
    ∧ Queue.close (Queue.close true).1 = ((Queue.close true).1, [])
    ∧ Queue.close (Queue.close false).1 = ((Queue.close false).1, []) := by
  decide

/-- C5: `moveToActive` on an empty waiting list returns nil and changes
nothing; on a non-empty waiting list it removes the tail element, pushes
that id onto the head of active, sets `startedAt = nowMs` on that job's
hash, leaves delayed untouched, and returns the id. -/
theorem claim5_moveToActive (s : QueueState) (nowMs : Nat) :
    (s.waiting = [] → moveToActive s nowMs = (none, s))
    ∧ (∀ jobId, s.waiting.getLast? = some jobId →
        (moveToActive s nowMs).1 = some jobId
        ∧ (moveToActive s nowMs).2.waiting = s.waiting.dropLast
        ∧ (moveToActive s nowMs).2.active = jobId :: s.active
        ∧ (moveToActive s nowMs).2.delayed = s.delayed
        ∧ startedAtOf (moveToActive s nowMs).2 jobId = some nowMs) := by
  constructor
  · intro h
    simp [moveToActive, h]
  · intro jobId h
    unfold moveToActive
    rw [h]
    refine ⟨rfl, rfl, rfl, rfl, ?_⟩
    unfold startedAtOf hsetStartedAt
    rw [hashLookup_setRecord_self]
    rfl

/-- Witness for `claim5_moveToActive`: the empty case at an empty
key-space, and the non-empty case at waiting = ["a", "b"] (tail "b"). -/
theorem claim5_moveToActive_witness :
    moveToActive {} 7 = (none, {})
    ∧ ((moveToActive { waiting := ["a", "b"] } 7).1 = some "b"
        ∧ (moveToActive { waiting := ["a", "b"] } 7).2.waiting
            = (({ waiting := ["a", "b"] } : QueueState)).waiting.dropLast
        ∧ (moveToActive { waiting := ["a", "b"] } 7).2.active
            = "b" :: (({ waiting := ["a", "b"] } : QueueState)).active
        ∧ (moveToActive { waiting := ["a", "b"] } 7).2.delayed
            = (({ waiting := ["a", "b"] } : QueueState)).delayed
        ∧ startedAtOf (moveToActive { waiting := ["a", "b"] } 7).2 "b" = some 7) :=
  ⟨(claim5_moveToActive {} 7).1 rfl,
   (claim5_moveToActive { waiting := ["a", "b"] } 7).2 "b" rfl⟩

/-- C3 fails as stated: the claim puts the job in `delayed` iff the merged
delay is positive, but the source tests the truthiness of the call-site
`options.delay` before merging. With `defaultJobOptions.delay = 1000`
and no call-site delay, the merged delay is 1000 > 0 yet the job is
created with status `waiting`. -/
theorem claim3_counterexample :
    addPlacement (Queue.add true { delay := some 1000 } {} "j1" 0 "t" "d" {}) =
      some (some 1000, JobStatus.waiting, ["j1"], []) := by
  decide

/-- C3 (amended): `add` on a ready queue returns a job carrying the fresh
id, `createdAt = now`, `attemptsMade = 0`, and the call options merged
over the defaults; its status is `delayed` iff the call-site
`options.delay` is present and nonzero (the merged default delay does
not affect placement) and `waiting` otherwise; in the same transaction
the job is written to its hash and the id is LPUSHed onto waiting or
ZADDed into delayed with score `now + delay`; `added` is emitted. -/
theorem claim3_add (dflt : JobOptions) (s : QueueState) (freshId : String)
    (now : Nat) (name payload : String) (opts : JobOptions) :
    ∃ job s2,
      Queue.add true dflt s freshId now name payload opts = .ok (job, s2, [Event.added job])
      ∧ job.id = freshId
      ∧ job.name = name
      ∧ job.data = payload
      ∧ job.createdAt = now
      ∧ job.attemptsMade = 0
      ∧ job.options = mergeOptions dflt opts
      ∧ job.status = (if delayTruthy opts.delay then JobStatus.delayed else JobStatus.waiting)
      ∧ hgetData s2 freshId = some job
      ∧ (if delayTruthy opts.delay then
          (freshId, Int.ofNat (now + opts.delay.getD 0)) ∈ s2.delayed ∧ s2.waiting = s.waiting
        else s2.waiting = freshId :: s.waiting ∧ s2.delayed = s.delayed) := by
  refine ⟨_, _, rfl, rfl, rfl, rfl, rfl, rfl, rfl, rfl, ?_, ?_⟩
  · by_cases hd : delayTruthy opts.delay
    · simp only [hd, if_true]
      exact (hgetData_eq_of_jobs_eq rfl freshId).trans (hgetData_hsetData_self _ _ _)
    · simp only [hd, Bool.false_eq_true, if_false]
      exact (hgetData_eq_of_jobs_eq rfl freshId).trans (hgetData_hsetData_self _ _ _)
  · by_cases hd : delayTruthy opts.delay
    · simp only [hd, if_true]
      exact ⟨mem_zadd_self _ _ _, rfl⟩
    · simp only [hd, Bool.false_eq_true, if_false]
      exact ⟨rfl, rfl⟩

/-- A state whose `jobs` equal those after an `hsetData` reads back the
stored job. -/
theorem hgetData_eq_some_of_jobs (t s : QueueState) (id : String) (j : Job)
    (h : t.jobs = (hsetData s id j).jobs) : hgetData t id = some j :=
  (hgetData_eq_of_jobs_eq h id).trans (hgetData_hsetData_self s id j)

/-- A state whose `jobs` equal those after a `delHash` reads back nothing. -/
theorem hgetData_eq_none_of_jobs (t s : QueueState) (id : String)
    (h : t.jobs = (delHash s id).jobs) : hgetData t id = none :=
  (hgetData_eq_of_jobs_eq h id).trans (hgetData_delHash_self s id)

/-- Membership of the freshly written member in a state whose delayed set
comes from a `zadd`. -/
theorem mem_delayed_of_eq (t : QueueState) (zs : List (String × Int))
    (score : Int) (id : String) (h : t.delayed = zadd zs score id) :
    (id, score) ∈ t.delayed := by
  rw [h]
  exact mem_zadd_self zs score id

/-- C7 (amended): for every failed execution whose hash record still
exists and whose stored `attemptsMade` respects the reachable-state
invariant (below the floored attempt cap), the failure path increments
`attemptsMade` by exactly 1, records `failedReason`, and appends one
entry to `stackTrace`. Writing `attemptsOr1` for the source's
`options.attempts || 1` (absent and 0 both treated as 1): if the
incremented `attemptsMade` is below `attemptsOr1` the job is written
back with status `delayed`, the id is ZADDed into delayed with score
`now + backoff`, LREMed from active, and `failed` then `retrying` are
emitted; otherwise status is `failed`, the id is LREMed from active, the
hash is deleted iff `removeOnFail` else written back, only `failed` is
emitted, and `attemptsMade <= attemptsOr1 options` holds upon reaching
status `failed`. -/
theorem claim7_failJob (s : QueueState) (jobId errMsg errStack : String)
    (now : Nat) (job : Job)
    (hget : hgetData s jobId = some job)
    (hinv : job.attemptsMade < attemptsOr1 job.options) :
    ∃ job1 : Job,
      job1.attemptsMade = job.attemptsMade + 1
      ∧ job1.failedReason = some errMsg
      ∧ job1.stackTrace = job.stackTrace ++ [errStack]
      ∧ job1.id = job.id
      ∧ job1.options = job.options
      ∧ (if job.attemptsMade + 1 < attemptsOr1 job.options then
          job1.status = JobStatus.delayed
          ∧ hgetData (Worker.failJob s jobId errMsg errStack now).1 jobId = some job1
          ∧ (job.id, Int.ofNat (now + calculateBackoff (job.attemptsMade + 1) job.options))
              ∈ (Worker.failJob s jobId errMsg errStack now).1.delayed
          ∧ job.id ∉ (Worker.failJob s jobId errMsg errStack now).1.active
          ∧ (Worker.failJob s jobId errMsg errStack now).2
              = [Event.failed job1 errMsg, Event.retrying job1]
        else
          job1.status = JobStatus.failed
          ∧ job1.attemptsMade ≤ attemptsOr1 job.options
          ∧ job.id ∉ (Worker.failJob s jobId errMsg errStack now).1.active
          ∧ (if job.options.removeOnFail.getD false then
              hgetData (Worker.failJob s jobId errMsg errStack now).1 jobId = none
            else hgetData (Worker.failJob s jobId errMsg errStack now).1 jobId = some job1)
          ∧ (Worker.failJob s jobId errMsg errStack now).2 = [Event.failed job1 errMsg]) := by
  by_cases hc : job.attemptsMade + 1 < attemptsOr1 job.options
  · refine ⟨{ job with
      attemptsMade := job.attemptsMade + 1
      failedReason := some errMsg
      stackTrace := job.stackTrace ++ [errStack]
      status := JobStatus.delayed }, rfl, rfl, rfl, rfl, rfl, ?_⟩
    rw [if_pos hc]
    unfold Worker.failJob
    rw [hget]
    simp only []
    rw [if_pos hc]
    refine ⟨?_, ?_, ?_, ?_, ?_⟩
    · trivial
    · exact hgetData_eq_some_of_jobs _ _ _ _ rfl
    · exact mem_delayed_of_eq _ _ _ _ rfl
    · exact not_mem_lremAll _ _
    · trivial
  · refine ⟨{ job with
      attemptsMade := job.attemptsMade + 1
      failedReason := some errMsg
      stackTrace := job.stackTrace ++ [errStack]
      status := JobStatus.failed }, rfl, rfl, rfl, rfl, rfl, ?_⟩
    rw [if_neg hc]
    unfold Worker.failJob
    rw [hget]
    simp only []
    rw [if_neg hc]
    refine ⟨?_, ?_, ?_, ?_, ?_⟩
    · trivial
    · omega
    · by_cases hr : job.options.removeOnFail.getD false
      · rw [if_pos hr]
        exact not_mem_lremAll _ _
      · rw [if_neg hr]
        exact not_mem_lremAll _ _
    · by_cases hr : job.options.removeOnFail.getD false
      · rw [if_pos hr, if_pos hr]
        exact hgetData_eq_none_of_jobs _ _ _ rfl
      · rw [if_neg hr, if_neg hr]
        exact hgetData_eq_some_of_jobs _ _ _ _ rfl
    · trivial


/-- Witness for `claim7_failJob` at the stored job `zeroAttemptsJob`
(whose floored attempt cap is 1), failing with message "boom". -/
theorem claim7_failJob_witness :
    hgetData zeroAttemptsState "j7" = some zeroAttemptsJob
    ∧ zeroAttemptsJob.attemptsMade < attemptsOr1 zeroAttemptsJob.options
    ∧ (∃ job1 : Job,
        job1.attemptsMade = zeroAttemptsJob.attemptsMade + 1
        ∧ job1.failedReason = some "boom"
        ∧ job1.stackTrace = zeroAttemptsJob.stackTrace ++ ["trace"]
        ∧ job1.id = zeroAttemptsJob.id
        ∧ job1.options = zeroAttemptsJob.options
        ∧ (if zeroAttemptsJob.attemptsMade + 1 < attemptsOr1 zeroAttemptsJob.options then
            job1.status = JobStatus.delayed
            ∧ hgetData (Worker.failJob zeroAttemptsState "j7" "boom" "trace" 0).1 "j7" = some job1
            ∧ (zeroAttemptsJob.id,
                Int.ofNat (0 + calculateBackoff (zeroAttemptsJob.attemptsMade + 1) zeroAttemptsJob.options))
                ∈ (Worker.failJob zeroAttemptsState "j7" "boom" "trace" 0).1.delayed
            ∧ zeroAttemptsJob.id ∉ (Worker.failJob zeroAttemptsState "j7" "boom" "trace" 0).1.active
            ∧ (Worker.failJob zeroAttemptsState "j7" "boom" "trace" 0).2
                = [Event.failed job1 "boom", Event.retrying job1]
          else
            job1.status = JobStatus.failed
            ∧ job1.attemptsMade ≤ attemptsOr1 zeroAttemptsJob.options
            ∧ zeroAttemptsJob.id ∉ (Worker.failJob zeroAttemptsState "j7" "boom" "trace" 0).1.active
            ∧ (if zeroAttemptsJob.options.removeOnFail.getD false then
                hgetData (Worker.failJob zeroAttemptsState "j7" "boom" "trace" 0).1 "j7" = none
              else hgetData (Worker.failJob zeroAttemptsState "j7" "boom" "trace" 0).1 "j7" = some job1)
            ∧ (Worker.failJob zeroAttemptsState "j7" "boom" "trace" 0).2 = [Event.failed job1 "boom"])) :=
  ⟨rfl, by decide,
   claim7_failJob zeroAttemptsState "j7" "boom" "trace" 0 zeroAttemptsJob rfl (by decide)⟩


/-- The promotion fold moves the processed ids, in order, onto the head
of the waiting list. -/
theorem foldl_promoteStep_waiting (js : List String) (s : QueueState) :
    (js.foldl promoteStep s).waiting = js.reverse ++ s.waiting := by
  induction js generalizing s with
  | nil => simp
  | cons a t ih =>
      simp only [List.foldl_cons, List.reverse_cons, ih, promoteStep]
      simp

/-- The promotion fold acts on the delayed set as a fold of removals. -/
theorem foldl_promoteStep_delayed (js : List String) (s : QueueState) :
    (js.foldl promoteStep s).delayed = js.foldl zrem s.delayed := by
  induction js generalizing s with
  | nil => rfl
  | cons a t ih =>
      simp only [List.foldl_cons]
      rw [ih]
      rfl

/-- Folding removals of the ids in `js` keeps exactly the entries whose
key is not listed in `js`. -/
theorem foldl_zrem_eq_filter (js : List String) (zs : List (String × Int)) :
    js.foldl zrem zs = zs.filter (fun p => !js.contains p.1) := by
  induction js generalizing zs with
  | nil => simp
  | cons a t ih =>
      simp only [List.foldl_cons, ih, zrem]
      rw [List.filter_filter]
      apply List.filter_congr
      intro p hp
      simp only [List.contains_cons, Bool.not_or]
      simp [bne, Bool.and_comm]

/-- In an association list with no duplicate keys, two stored entries
with the same key are the same entry. -/
theorem eq_of_mem_nodup_keys :
    ∀ (l : List (String × Int)), (l.map Prod.fst).Nodup →
      ∀ p q : String × Int, p ∈ l → q ∈ l → p.1 = q.1 → p = q := by
  intro l
  induction l with
  | nil =>
      intro _ p q hp _ _
      cases hp
  | cons a t ih =>
      intro h p q hp hq hk
      rw [List.map_cons, List.nodup_cons] at h
      rcases List.mem_cons.mp hp with hpa | hpt
      · rcases List.mem_cons.mp hq with hqa | hqt
        · rw [hpa, hqa]
        · exfalso
          apply h.1
          rw [hpa] at hk
          rw [hk]
          exact List.mem_map_of_mem Prod.fst hqt
      · rcases List.mem_cons.mp hq with hqa | hqt
        · exfalso
          apply h.1
          rw [hqa] at hk
          rw [← hk]
          exact List.mem_map_of_mem Prod.fst hpt
        · exact ih h.2 p q hpt hqt hk

/-- C4 fails as stated: the claim promotes every id with score in
(−∞, nowMs], but the script ranges `ZRANGEBYSCORE delayed 0 nowMs`, so a
member with a negative score is neither returned nor promoted: at
nowMs = 0 the member ("a", −1) has score ≤ nowMs yet stays in delayed
and never reaches waiting. -/
theorem claim4_counterexample :
    (processDelayed negScoreState 0).1 = []
    ∧ (-1 : Int) ≤ 0
    ∧ ("a", (-1 : Int)) ∈ (processDelayed negScoreState 0).2.delayed
    ∧ "a" ∉ (processDelayed negScoreState 0).2.waiting := by
  decide

/-- C4 (amended): on a delayed set with distinct members,
`processDelayed(delayedKey, waitingKey, nowMs)` removes from delayed
exactly those ids whose score lies in [0, nowMs] (the script's range is
bounded below by 0, not −∞), pushes each of them onto the head of
waiting, and returns the promoted ids; every id with score > nowMs or
score < 0 remains in delayed, and each promoted id is moved at most
once (its multiplicity in waiting grows by exactly one). -/
theorem claim4_processDelayed (s : QueueState) (nowMs : Int)
    (hnd : (s.delayed.map Prod.fst).Nodup) :
    (∀ p ∈ s.delayed, 0 ≤ p.2 ∧ p.2 ≤ nowMs →
        p.1 ∈ (processDelayed s nowMs).1
        ∧ p.1 ∈ (processDelayed s nowMs).2.waiting
        ∧ p.1 ∉ ((processDelayed s nowMs).2.delayed.map Prod.fst))
    ∧ (∀ p ∈ s.delayed, ¬(0 ≤ p.2 ∧ p.2 ≤ nowMs) →
        p ∈ (processDelayed s nowMs).2.delayed ∧ p.1 ∉ (processDelayed s nowMs).1)
    ∧ (∀ id ∈ (processDelayed s nowMs).1,
        ∃ p ∈ s.delayed, p.1 = id ∧ 0 ≤ p.2 ∧ p.2 ≤ nowMs)
    ∧ (∀ id ∈ (processDelayed s nowMs).1,
        (processDelayed s nowMs).2.waiting.count id = s.waiting.count id + 1) := by
  have hP1 : (processDelayed s nowMs).1
      = (s.delayed.filter (fun p => decide (0 ≤ p.2 ∧ p.2 ≤ nowMs))).map Prod.fst := rfl
  have hw : (processDelayed s nowMs).2.waiting
      = (processDelayed s nowMs).1.reverse ++ s.waiting :=
    foldl_promoteStep_waiting (processDelayed s nowMs).1 s
  have hd : (processDelayed s nowMs).2.delayed
      = s.delayed.filter (fun p => !(processDelayed s nowMs).1.contains p.1) :=
    (foldl_promoteStep_delayed (processDelayed s nowMs).1 s).trans
      (foldl_zrem_eq_filter (processDelayed s nowMs).1 s.delayed)
  have hmem : ∀ id, id ∈ (processDelayed s nowMs).1 →
      ∃ p ∈ s.delayed, p.1 = id ∧ 0 ≤ p.2 ∧ p.2 ≤ nowMs := by
    intro id hin
    rw [hP1] at hin
    rcases List.mem_map.mp hin with ⟨q, hq, hqid⟩
    rcases List.mem_filter.mp hq with ⟨hqs, hqc⟩
    exact ⟨q, hqs, hqid, of_decide_eq_true hqc⟩
  refine ⟨?_, ?_, hmem, ?_⟩
  · intro p hp hcond
    have hin : p.1 ∈ (processDelayed s nowMs).1 := by
      rw [hP1]
      exact List.mem_map_of_mem Prod.fst
        (List.mem_filter.mpr ⟨hp, decide_eq_true hcond⟩)
    refine ⟨hin, ?_, ?_⟩
    · rw [hw]
      exact List.mem_append_left _ (List.mem_reverse.mpr hin)
    · rw [hd]
      intro hbad
      rcases List.mem_map.mp hbad with ⟨q, hq, hqid⟩
      rcases List.mem_filter.mp hq with ⟨_, hqc⟩
      rw [hqid] at hqc
      rw [Bool.not_eq_true'] at hqc
      have : (processDelayed s nowMs).1.contains p.1 = true := by
        simp only [List.contains, List.elem_eq_mem]
        exact decide_eq_true hin
      rw [this] at hqc
      cases hqc
  · intro p hp hcond
    have hni : p.1 ∉ (processDelayed s nowMs).1 := by
      intro hin
      rcases hmem p.1 hin with ⟨q, hq, hqid, hqc⟩
      have := eq_of_mem_nodup_keys s.delayed hnd q p hq hp hqid
      rw [this] at hqc
      exact hcond hqc
    refine ⟨?_, hni⟩
    rw [hd]
    refine List.mem_filter.mpr ⟨hp, ?_⟩
    simp only [List.contains, List.elem_eq_mem, Bool.not_eq_true' ]
    exact decide_eq_false hni
  · intro id hin
    have hnodup : (processDelayed s nowMs).1.Nodup := by
      rw [hP1]
      exact List.Nodup.sublist
        (List.Sublist.map Prod.fst (List.filter_sublist s.delayed)) hnd
    rw [hw, List.count_append, List.count_reverse,
        List.count_eq_one_of_mem hnodup hin, Nat.add_comm]


/-- Witness for `claim4_processDelayed` at `promoteDemoState` and
nowMs = 5: only "a" (score 3) is due. -/
theorem claim4_processDelayed_witness :
    (promoteDemoState.delayed.map Prod.fst).Nodup
    ∧ ((∀ p ∈ promoteDemoState.delayed, 0 ≤ p.2 ∧ p.2 ≤ 5 →
          p.1 ∈ (processDelayed promoteDemoState 5).1
          ∧ p.1 ∈ (processDelayed promoteDemoState 5).2.waiting
          ∧ p.1 ∉ ((processDelayed promoteDemoState 5).2.delayed.map Prod.fst))
      ∧ (∀ p ∈ promoteDemoState.delayed, ¬(0 ≤ p.2 ∧ p.2 ≤ 5) →
          p ∈ (processDelayed promoteDemoState 5).2.delayed
          ∧ p.1 ∉ (processDelayed promoteDemoState 5).1)
      ∧ (∀ id ∈ (processDelayed promoteDemoState 5).1,
          ∃ p ∈ promoteDemoState.delayed, p.1 = id ∧ 0 ≤ p.2 ∧ p.2 ≤ 5)
      ∧ (∀ id ∈ (processDelayed promoteDemoState 5).1,
          (processDelayed promoteDemoState 5).2.waiting.count id
            = promoteDemoState.waiting.count id + 1)) :=
  ⟨by decide, claim4_processDelayed promoteDemoState 5 (by decide)⟩

end JetQueue
